import Mathlib

/-!
Shallow embedding of the cognitive-state engine implemented in `src/app.js`
(the `SyntheticMindRetroUI` module), together with proofs settling the frozen
claims about it.  Text is modelled as `List Char` (JS strings are sequences of
code units; all texts involved are ASCII), fractional quantities as `ℚ`
(exact arithmetic in place of IEEE doubles), and the random draws taken by
`Math.random()` are passed in as explicit parameters.
-/

/-- JS word-character class `\w` = `[A-Za-z0-9_]`, used by every `split(/\W+/)`
tokenization in the source. -/
def isWordChar (c : Char) : Bool :=
  c.isAlpha || c.isDigit || c == '_'

/-- Embedding of `String.prototype.startsWith` viewpoint used below:
`startsWithL l p` is true when `p` is a leading run of `l`. -/
def startsWithL : List Char → List Char → Bool
  | _, [] => true
  | [], _ :: _ => false
  | a :: as, b :: bs => a == b && startsWithL as bs

/-- Embedding of `String.prototype.includes`: `includesL hay needle` is true
when `needle` occurs contiguously inside `hay`. -/
def includesL : List Char → List Char → Bool
  | [], needle => needle.isEmpty
  | a :: t, needle => startsWithL (a :: t) needle || includesL t needle

/-- The spec-level notion of substring containment: `containsSeg big small`
holds when `small` occurs contiguously inside `big`. -/
def containsSeg (big small : List Char) : Prop :=
  ∃ s t, big = s ++ small ++ t

/-- Embedding of `String.prototype.trim`: drop whitespace from both ends. -/
def trimL (l : List Char) : List Char :=
  ((l.dropWhile Char.isWhitespace).reverse.dropWhile Char.isWhitespace).reverse

/-- The normalization `s.toLowerCase().trim()` applied by
`isThoughtTooSimilar` in `src/app.js` before comparing texts. -/
def normText (s : List Char) : List Char :=
  trimL (s.map Char.toLower)

/-- Exact value of `Math.ceil(n * 0.6)` for the string lengths that occur:
the ceiling of `3*n/5`. -/
def ceil60 (n : Nat) : Nat :=
  (3 * n + 4) / 5

/-- A memory fragment as stored on the Memory Stack in `src/app.js`:
`{ text, emotion, strength, timestamp, source? }`. -/
structure Fragment where
  text : String
  emotion : String
  strength : ℚ
  timestamp : Int
  source : Option String := none
  deriving DecidableEq

/-- Embedding of `isThoughtTooSimilar` (src/app.js lines 82-105): compare the
lower-cased trimmed candidate against the 3 newest stack entries; for each, if
the shorter normalized text has fewer than 5 characters skip it, otherwise
flag when either text contains the leading `ceil(0.6 * length)` characters of
the other. -/
def isThoughtTooSimilar (newThought : String) (memoryStack : List Fragment) : Bool :=
  let c := normText newThought.data
  (memoryStack.take 3).any fun mem =>
    let e := normText mem.text.data
    let shorter := min c.length e.length
    if shorter < 5 then false
    else
      (decide (0 < e.length) && includesL c (e.take (ceil60 e.length)))
        || (decide (0 < c.length) && includesL e (c.take (ceil60 c.length)))

/-- The similarity rule in the words of claim C4: either normalized string
contains a leading substring of the other covering at least 60% of the
length of the SHORTER string, ignoring comparisons where the shorter normalized
string is under 5 characters. -/
def claimTooSimilar (newThought : String) (memoryStack : List Fragment) : Prop :=
  ∃ mem ∈ memoryStack.take 3,
    5 ≤ min (normText newThought.data).length (normText mem.text.data).length ∧
    ∃ k, ceil60 (min (normText newThought.data).length (normText mem.text.data).length) ≤ k ∧
      (containsSeg (normText newThought.data) ((normText mem.text.data).take k) ∨
       containsSeg (normText mem.text.data) ((normText newThought.data).take k))

/-! ## Memory Stack inserts and the per-cycle effect trace -/

/-- The modulated memory decay rate computed at the start of each cycle
(src/app.js lines 699-709): base `0.95`, plus `0.03 * anxiety`, minus
`0.02 * calm`. -/
def decayRateOf (anxiety calm : ℚ) : ℚ :=
  19/20 + anxiety * (3/100) - calm * (1/50)

/-- One observable event of a scheduler cycle that touches the Memory Stack
or runs the per-cycle Emotional Gradient perturbation.  Other state updates
(beliefs, attention, topic, environment) are not traced because no claim about
the trace depends on them. -/
inductive CycleEffect where
  | insertExternal (text : String)
  | insertDream (text : String)
  | insertSubconsciousConflict (text : String)
  | insertSubconsciousQuestion (text : String)
  | insertIntuition (text : String)
  | insertGoal (text : String)
  | insertNormal (text : String)
  | perturbEmotions
  | schemaScanMarker
  | selfInspectMarker
  deriving DecidableEq

/-- Effect of one traced event on the Memory Stack, translated from the
individual `setMemoryStack` call sites in `src/app.js`:
external stimulus (line 676, strength 0.3), dream (line 728, strength 0.7),
subconscious rumination (lines 772 and 782, strength 0.5), intuition
(line 801, strength 0.8), goal-directed (line 939, strength 0.9) all prepend
onto `prev.slice(0, 9)` without touching existing strengths; the normal-cycle
insert (lines 975-987) decays every existing strength by `rate` with floor
0.1, prepends the new fragment at strength 1.0 and truncates to 10. -/
def applyEffect (rate : ℚ) (dom : String) (now : Int) :
    List Fragment → CycleEffect → List Fragment
  | st, .insertExternal t => ⟨t, "CURIOSITY", 3/10, now, none⟩ :: st.take 9
  | st, .insertDream t => ⟨t, "DREAMING", 7/10, now, none⟩ :: st.take 9
  | st, .insertSubconsciousConflict t =>
      ⟨t, "ANXIETY", 1/2, now, some "subconscious"⟩ :: st.take 9
  | st, .insertSubconsciousQuestion t =>
      ⟨t, "REFLECTIVE", 1/2, now, some "subconscious"⟩ :: st.take 9
  | st, .insertIntuition t => ⟨t, "CURIOSITY", 4/5, now, some "intuition"⟩ :: st.take 9
  | st, .insertGoal t => ⟨t, "REFLECTIVE", 9/10, now, some "goal"⟩ :: st.take 9
  | st, .insertNormal t =>
      (⟨t, dom, 1, now, none⟩ ::
        st.map fun m => { m with strength := max (1/10) (m.strength * rate) }).take 10
  | st, .perturbEmotions => st
  | st, .schemaScanMarker => st
  | st, .selfInspectMarker => st

/-- Fold a cycle trace over the Memory Stack. -/
def applyEffects (rate : ℚ) (dom : String) (now : Int)
    (st : List Fragment) (effs : List CycleEffect) : List Fragment :=
  effs.foldl (applyEffect rate dom now) st

/-- The boolean outcomes of the random draws and data-dependent conditions
taken by one firing of the scheduler interval in `src/app.js`. -/
structure CycleDraws where
  extTrigger : Bool
  dreamTrigger : Bool
  subConflict : Bool
  subQuestion : Bool
  intuitionTrigger : Bool
  goalTrigger : Bool
  deriving DecidableEq

/-- The generated texts consumed by one cycle. -/
structure CycleTexts where
  extText : String
  dreamText : String
  subcText : String
  intuText : String
  goalText : String
  normalText : String

/-- Trace of one scheduler cycle (src/app.js lines 664-1201), restricted to
Memory Stack inserts and the section 4.2 gradient perturbation.  `memLen` is
the captured `memoryStack.length` (React state captured at render time, so
every modulus test in the cycle sees the pre-cycle length).  The dream branch
(line 758), the self-inspection branch (line 925) and the goal-directed branch
(line 948) all `return` early, skipping everything after them including the
final perturbation at lines 1172-1198. -/
def cycleEffects (d : CycleDraws) (memLen : Nat) (maturityGate : Bool)
    (tx : CycleTexts) : List CycleEffect :=
  (if d.extTrigger then [.insertExternal tx.extText] else []) ++
  (if d.dreamTrigger then [.insertDream tx.dreamText] else
    (if memLen % 10 = 0 ∧ 0 < memLen then
      (if d.subConflict then [.insertSubconsciousConflict tx.subcText]
       else if d.subQuestion then [.insertSubconsciousQuestion tx.subcText] else []) ++
      (if d.intuitionTrigger then [.insertIntuition tx.intuText] else [])
     else []) ++
    (if memLen % 5 = 0 ∧ maturityGate then [.schemaScanMarker] else []) ++
    (if memLen % 6 = 0 ∧ 0 < memLen then [.selfInspectMarker] else
      if d.goalTrigger then [.insertGoal tx.goalText] else
        [.insertNormal tx.normalText, .perturbEmotions]))

/-- The invariant of claim C1: at most 10 fragments, every strength within
`[0.1, 1.0]`. -/
def StackInv (st : List Fragment) : Prop :=
  st.length ≤ 10 ∧ ∀ m ∈ st, 1/10 ≤ m.strength ∧ m.strength ≤ 1

/-- Number of section 4.2 perturbations in a cycle trace. -/
def perturbCount (l : List CycleEffect) : Nat :=
  (l.filter fun e => e = CycleEffect.perturbEmotions).length

/-- Insertion as described by the spec sentence of claim C5: decay every
existing strength by the modulated rate with floor 0.1, prepend, truncate
to 10. -/
def specDecayInsert (rate : ℚ) (f : Fragment) (st : List Fragment) : List Fragment :=
  (f :: st.map fun m => { m with strength := max (1/10) (m.strength * rate) }).take 10

/-- Insertion as actually performed by every non-normal call site: prepend the
new fragment onto the 9 newest existing entries, strengths untouched. -/
def specPlainInsert (f : Fragment) (st : List Fragment) : List Fragment :=
  f :: st.take 9

/-! ## Emotional Gradient -/

/-- The Emotional Gradient object of `src/app.js`: one weight per emotion key,
in the fixed key order curiosity, calm, anxiety, reflective, dreaming. -/
structure EmotionalGradient where
  curiosity : ℚ
  calm : ℚ
  anxiety : ℚ
  reflective : ℚ
  dreaming : ℚ
  deriving DecidableEq

/-- Sum of all weights of the gradient. -/
def sumG (g : EmotionalGradient) : ℚ :=
  g.curiosity + g.calm + g.anxiety + g.reflective + g.dreaming

/-- The decay step of the per-cycle perturbation (src/app.js lines 1177-1179):
every weight becomes `Math.max(0.0, w * 0.95)`. -/
def decayG (g : EmotionalGradient) : EmotionalGradient :=
  ⟨max 0 (g.curiosity * (19/20)), max 0 (g.calm * (19/20)), max 0 (g.anxiety * (19/20)),
   max 0 (g.reflective * (19/20)), max 0 (g.dreaming * (19/20))⟩

/-- The emotion keys, in the enumeration order of `Object.keys` on the
gradient object. -/
inductive EmotionKey where
  | curiosity
  | calm
  | anxiety
  | reflective
  | dreaming
  deriving DecidableEq

/-- Boost one emotion weight by 0.1, clamped at 1.0 (src/app.js line 1189). -/
def boostEmotion (g : EmotionalGradient) : EmotionKey → EmotionalGradient
  | .curiosity => { g with curiosity := min 1 (g.curiosity + 1/10) }
  | .calm => { g with calm := min 1 (g.calm + 1/10) }
  | .anxiety => { g with anxiety := min 1 (g.anxiety + 1/10) }
  | .reflective => { g with reflective := min 1 (g.reflective + 1/10) }
  | .dreaming => { g with dreaming := min 1 (g.dreaming + 1/10) }

/-- The random pick `emotionsArray[Math.floor(Math.random() * 5)]`
(src/app.js line 1184).  For `0 ≤ r < 1` the floor is 0..4; the catch-all arm
is unreachable under that hypothesis. -/
def pickEmotion (r : ℚ) : EmotionKey :=
  match (⌊r * 5⌋).toNat with
  | 0 => .curiosity
  | 1 => .calm
  | 2 => .anxiety
  | 3 => .reflective
  | _ => .dreaming

/-- The once-per-cycle Emotional Gradient perturbation (src/app.js lines
1172-1198): decay every weight by 0.95 (floored at 0, a no-op for
non-negative weights); if `r1 < 0.2 + 0.3 * tension`, boost one emotion by
0.1 — forced to anxiety when `tension > 0.5` and `r3 < 0.5`, otherwise the
random pick by `r2`; finally divide every weight by the total. -/
def perturbGradient (tension r1 r2 r3 : ℚ) (g : EmotionalGradient) : EmotionalGradient :=
  let d := decayG g
  let b :=
    if r1 < 1/5 + tension * (3/10) then
      boostEmotion d (if tension > 1/2 ∧ r3 < 1/2 then .anxiety else pickEmotion r2)
    else d
  let s := sumG b
  ⟨b.curiosity / s, b.calm / s, b.anxiety / s, b.reflective / s, b.dreaming / s⟩

/-! ## The external text-generation call -/

/-- The observable outcome of one attempt by `callLLM` (src/app.js lines
4-79) to reach the Hugging Face inference endpoint:
the `fetch` promise rejects; the response is not ok and its body fails to
parse as JSON; the response is not ok with a parsed body whose `error` field
is absent or a string; the response is ok but its body fails to parse; or the
response is ok with `result[0].generated_text` absent or a string. -/
inductive LLMCallOutcome where
  | transportError
  | httpErrorBadBody (status : Nat)
  | httpError (status : Nat) (errField : Option String)
  | okBadBody
  | okResponse (generatedText : Option String)
  deriving DecidableEq

/-- Literal message for a 401 response (src/app.js line 50). -/
def authErrorMsg : String :=
  "(LLM Error: Hugging Face API Key Unauthorized (401). Please check your token and permissions.)"

/-- Literal message for a 503 model-loading response (src/app.js line 52). -/
def loadingErrorMsg : String :=
  "(LLM Error: Hugging Face model is loading. Please wait a moment and try again.)"

/-- Literal message returned from the catch-all handler (src/app.js line 77). -/
def networkErrorMsg : String :=
  "(LLM Error: Network issue or API call failed.)"

/-- Literal message for an ok response of unexpected shape (src/app.js line 72). -/
def unexpectedStructureMsg : String :=
  "(LLM Error: HF API returned unexpected response structure.)"

/-- The initial error message template of src/app.js line 48, with the JS
falsy-coalescing of a missing or empty error field to the text Unknown error. -/
def baseHttpErrorMsg (status : Nat) (errField : Option String) : String :=
  "(LLM Error: HF API returned " ++ toString status ++ ": " ++
    (match errField with
     | some e => if e = "" then "Unknown error" else e
     | none => "Unknown error") ++ ")"

/-- String containment wrapper for `String.prototype.includes`. -/
def includesS (hay needle : String) : Bool :=
  includesL hay.data needle.data

/-- Removal of every `<end_of_turn>` and `<eos>` occurrence, as the global
regex replace of src/app.js line 67 performs on a successful generation. -/
def stripTokens : List Char → List Char
  | [] => []
  | c :: t =>
    if startsWithL (c :: t) "<end_of_turn>".data then stripTokens (t.drop 12)
    else if startsWithL (c :: t) "<eos>".data then stripTokens (t.drop 4)
    else c :: stripTokens t
termination_by l => l.length
decreasing_by
  · simp only [List.length_cons, List.length_drop]
    omega
  · simp only [List.length_cons, List.length_drop]
    omega
  · simp only [List.length_cons]
    omega

/-- JS `trim` on a `String`. -/
def jsTrimS (s : String) : String :=
  ⟨trimL s.data⟩

/-- The body of `callLLM` up to exception propagation: `.error ()` marks a
JS exception thrown inside the `try` block (rejected fetch, failed
`response.json()`, or — when a 503 body has no `error` field — the
`errorData.error.includes("loading")` call throwing on `undefined`). -/
def callLLMTry : LLMCallOutcome → Except Unit String
  | .transportError => .error ()
  | .httpErrorBadBody _ => .error ()
  | .httpError status err =>
      if status = 401 then .ok authErrorMsg
      else if status = 503 then
        match err with
        | none => .error ()
        | some e =>
          if includesS e "loading" then .ok loadingErrorMsg
          else if e = "" then .ok (baseHttpErrorMsg status (some e))
          else .ok ("(LLM Error: " ++ e ++ ")")
      else
        match err with
        | some e =>
            if e = "" then .ok (baseHttpErrorMsg status (some e))
            else .ok ("(LLM Error: " ++ e ++ ")")
        | none => .ok (baseHttpErrorMsg status none)
  | .okBadBody => .error ()
  | .okResponse gen =>
      match gen with
      | some s =>
          if s = "" then .ok unexpectedStructureMsg
          else .ok (jsTrimS ⟨stripTokens s.data⟩)
      | none => .ok unexpectedStructureMsg

/-- `callLLM` itself: every exception raised inside the `try` block lands in
the `catch` handler, which returns the network-error marker.  The function
therefore always returns a string to its caller. -/
def callLLM (o : LLMCallOutcome) : String :=
  match callLLMTry o with
  | .ok s => s
  | .error _ => networkErrorMsg

/-- Outcomes on which `callLLM` does not return generated text. -/
def isLLMFailure : LLMCallOutcome → Bool
  | .okResponse (some s) => s == ""
  | .okResponse none => true
  | _ => true

/-- The canonical error-marker lead of every failure message. -/
def errorMarkerLead : List Char :=
  "(LLM Error:".data

/-! ## Tokenization, Concept Graph and schema formation -/

/-- A word token (or a graph key). -/
abbrev Token := List Char

/-- Splitting on `/\W+/` with JS semantics: maximal word-character runs become
elements, and a leading or trailing separator run contributes an empty
element.  The second argument is `some acc` while inside a word run
(accumulated reversed) and `none` while inside a separator run. -/
def splitNWAux : List Char → Option (List Char) → List Token
  | [], some acc => [acc.reverse]
  | [], none => [[]]
  | c :: t, some acc =>
      if isWordChar c then splitNWAux t (some (c :: acc))
      else acc.reverse :: splitNWAux t none
  | c :: t, none =>
      if isWordChar c then splitNWAux t (some [c]) else splitNWAux t none

/-- JS `s.split(/\W+/)`. -/
def jsSplitNW (l : List Char) : List Token :=
  splitNWAux l (some [])

/-- The content tokenization `text.toLowerCase().split(/\W+/).filter(w =>
w.length > 2)` used by `updateConceptPairFrequency` (line 468) and the
Hebbian graph updates (lines 1083, 1113). -/
def tokenizeContent (l : List Char) : List Token :=
  (jsSplitNW (l.map Char.toLower)).filter fun w => 2 < w.length

/-- Lexicographic UTF-16 code-unit comparison, the default JS `Array.sort`
comparator applied to the two tokens of a pair. -/
def lexLe : List Char → List Char → Bool
  | [], _ => true
  | _ :: _, [] => false
  | a :: as, b :: bs =>
      if a.toNat < b.toNat then true
      else if b.toNat < a.toNat then false
      else lexLe as bs

/-- The frequency-table key `[a, b].sort().join('+')` (src/app.js line 471). -/
def pairKey (a b : Token) : Token :=
  if lexLe a b then a ++ '+' :: b else b ++ '+' :: a

/-- First component of the sorted pair. -/
def sortPairFst (a b : Token) : Token :=
  if lexLe a b then a else b

/-- Second component of the sorted pair. -/
def sortPairSnd (a b : Token) : Token :=
  if lexLe a b then b else a

/-- Association-list lookup (JS object property read). -/
def lookupKey {α : Type} : List (Token × α) → Token → Option α
  | [], _ => none
  | (k0, v) :: rest, k => if k0 = k then some v else lookupKey rest k

/-- JS `map[k] = (map[k] || 0) + 1`: bump an existing key in place, or append
the key (object insertion order) at count 1. -/
def bumpKey : List (Token × Nat) → Token → List (Token × Nat)
  | [], k => [(k, 1)]
  | (k0, n) :: rest, k =>
      if k0 = k then (k0, n + 1) :: rest else (k0, n) :: bumpKey rest k

/-- JS `map[k] = v` on an existing-or-new key. -/
def setKeyCount : List (Token × Nat) → Token → Nat → List (Token × Nat)
  | [], k, v => [(k, v)]
  | (k0, n) :: rest, k, v =>
      if k0 = k then (k0, v) :: rest else (k0, n) :: setKeyCount rest k v

/-- All ordered index pairs `i < j` of a token list, as the double loop of
`updateConceptPairFrequency` enumerates them. -/
def allPairs : List Token → List (Token × Token)
  | [] => []
  | w :: ws => (ws.map fun v => (w, v)) ++ allPairs ws

/-- Embedding of `updateConceptPairFrequency` (src/app.js lines 467-475):
tokenize the fragment text and bump the sorted pair key of every index pair. -/
def updateConceptPairFrequency (memoryText : String) (m : List (Token × Nat)) :
    List (Token × Nat) :=
  (allPairs (tokenizeContent memoryText.data)).foldl
    (fun acc p => bumpKey acc (pairKey p.1 p.2)) m

/-- JS `s.replace('+', '-')`: a string pattern replaces only the first
occurrence. -/
def replaceFirstCh : List Char → Char → Char → List Char
  | [], _, _ => []
  | c :: t, a, b => if c = a then b :: t else c :: replaceFirstCh t a b

/-- Helper of `splitOnCh`, accumulating the current segment reversed. -/
def splitOnChAux (sep : Char) : List Char → List Char → List Token
  | [], acc => [acc.reverse]
  | c :: t, acc =>
      if c = sep then acc.reverse :: splitOnChAux sep t []
      else splitOnChAux sep t (c :: acc)

/-- JS `s.split('+')` (single-character separator). -/
def splitOnCh (sep : Char) (l : List Char) : List Token :=
  splitOnChAux sep l []

/-- The Concept Graph: token keys mapped to neighbor token lists, in
insertion order. -/
abbrev ConceptGraph := List (Token × List Token)

/-- The schema-formation scan of src/app.js lines 825-842: the first pair key
in table order whose count exceeds 3 and whose hyphenated name is not yet a
graph key. -/
def schemaScanFind : List (Token × Nat) → ConceptGraph → Option Token
  | [], _ => none
  | (k, n) :: rest, g =>
      if 3 < n ∧ (lookupKey g (replaceFirstCh k '+' '-')).isNone then some k
      else schemaScanFind rest g

/-- Embedding of the schema-formation check (src/app.js lines 821-848) on one
graph and one frequency table: synthesize at most one new node
`"a-b" -> [a, b, synthesis, pattern]` from the first qualifying pair, reset
the count of that pair to 0, and report whether a schema formed. -/
def schemaCheck (g : ConceptGraph) (m : List (Token × Nat)) :
    ConceptGraph × List (Token × Nat) × Bool :=
  match schemaScanFind m g with
  | none => (g, m, false)
  | some k =>
      let parts := splitOnCh '+' k
      let a := parts.headD []
      let b := (parts.drop 1).headD []
      (g ++ [(a ++ '-' :: b, [a, b, "synthesis".data, "pattern".data])],
       setKeyCount m k 0, true)

/-! ## Beliefs and contradiction detection -/

/-- A belief record `{ concept, stance, evidence, confidence }`. -/
structure Belief where
  concept : Token
  stance : Token
  evidence : List Token
  confidence : ℚ
  deriving DecidableEq

/-- `new Map(beliefs.map(b => [b.concept, b.stance])).get(c)`: later entries
overwrite earlier ones, so the lookup returns the stance of the last belief
with the given concept. -/
def stanceLookup (beliefs : List Belief) (c : Token) : Option Token :=
  (beliefs.reverse.find? fun b => b.concept == c).map Belief.stance

/-- Insertion-ordered deduplication, keeping the first occurrence, as a JS
`Set` built by successive `add` calls behaves.  `seen` holds the values
already emitted. -/
def jsSetDedupAux {α : Type} [DecidableEq α] (seen : List α) : List α → List α
  | [] => []
  | a :: l =>
      if a ∈ seen then jsSetDedupAux seen l else a :: jsSetDedupAux (a :: seen) l

/-- `Array.from(new Set(l))`. -/
def jsSetDedup {α : Type} [DecidableEq α] (l : List α) : List α :=
  jsSetDedupAux [] l

/-- The apostrophe character used inside the conflict message templates. -/
def apos : Char :=
  Char.ofNat 39

/-- A token wrapped in apostrophes, as the template literals interpolate it. -/
def quoteTok (t : Token) : Token :=
  apos :: t ++ [apos]

/-- The string JS produces when the missing third element of a two-element
predefined pair is coerced — `String.prototype.includes(undefined)` and the
template literal both stringify `undefined`. -/
def undefinedTok : Token :=
  "undefined".data

/-- The message template of src/app.js line 438. -/
def predefMsg (concept s1 s2 : Token) : Token :=
  "Contradiction in ".data ++ quoteTok concept ++ " between ".data ++
    quoteTok s1 ++ " and ".data ++ quoteTok s2

/-- The message template of src/app.js line 455. -/
def impliedMsg (a b : Token) : Token :=
  "Implied contradiction between ".data ++ quoteTok a ++ " and ".data ++ quoteTok b

/-- The predefined contradiction table (src/app.js lines 426-432); the last
component is `none` for the two-element rows, whose destructured `stance2` is
`undefined`. -/
def predefinedContradictions : List (Token × Token × Option Token) :=
  [("self".data, "undefined".data, some "defined".data),
   ("chaos".data, "order".data, none),
   ("free will".data, "determinism".data, none),
   ("memory".data, "fluid".data, some "static".data),
   ("existence".data, "real".data, some "simulated".data)]

/-- The per-row test of src/app.js line 437:
`(currentStance.includes(stance1) && currentStance.includes(stance2)) ||
(currentStance === stance1 && beliefStances.get(concept) === stance2)`.
When `stance2` is `undefined`, `includes` coerces it to the string
`"undefined"` and the strict equality with a string is always false. -/
def predefEntryFires (st s1 : Token) (s2 : Option Token) : Bool :=
  (includesL st s1 && includesL st (s2.getD undefinedTok)) ||
    (match s2 with
     | some s => st == s1 && st == s
     | none => false)

/-- One iteration of the predefined-contradictions loop (src/app.js lines
435-440): skip when the concept has no stance or a falsy (empty) one,
otherwise emit the conflict message when the row fires. -/
def loop1Entry (stanceOf : Token → Option Token)
    (e : Token × Token × Option Token) : Option Token :=
  match stanceOf e.1 with
  | none => none
  | some st =>
      if st ≠ [] ∧ predefEntryFires st e.2.1 e.2.2 = true then
        some (predefMsg e.1 e.2.1 (e.2.2.getD undefinedTok))
      else none

/-- The predefined-contradictions loop of `detectContradictions` (src/app.js
lines 435-440), in table order. -/
def detectLoop1 (stanceOf : Token → Option Token) : List Token :=
  predefinedContradictions.filterMap (loop1Entry stanceOf)

/-- The belief-graph loop of `detectContradictions` (src/app.js lines
443-459): for every linked pair, when both stances are truthy and the pair is
logic/chaos in either orientation with both stances containing "true", record
an implied contradiction. -/
def detectLoop2 (bg : ConceptGraph) (stanceOf : Token → Option Token) : List Token :=
  (bg.map fun p =>
    p.2.filterMap fun cb =>
      match stanceOf p.1, stanceOf cb with
      | some sa, some sb =>
          if sa ≠ [] ∧ sb ≠ [] ∧
              ((p.1 = "logic".data ∧ cb = "chaos".data) ∨
               (p.1 = "chaos".data ∧ cb = "logic".data)) ∧
              includesL sa "true".data = true ∧ includesL sb "true".data = true then
            some (impliedMsg p.1 cb)
          else none
      | _, _ => none).flatten

/-- Embedding of `detectContradictions` (src/app.js lines 421-462): both
loops feed one `Set`, whose `Array.from` is the insertion-ordered
deduplication of the concatenated matches. -/
def detectContradictions (beliefs : List Belief) (bg : ConceptGraph) : List Token :=
  jsSetDedup (detectLoop1 (stanceLookup beliefs) ++ detectLoop2 bg (stanceLookup beliefs))

/-- The contradiction update of the self-inspection branch (src/app.js lines
856-864): the conflicts list becomes the deduplicated union of previous
conflicts and detected contradictions, and tension grows by 0.1 per DETECTED
contradiction, capped at 1. -/
def selfInspectionStep (conflicts : List Token) (tension : ℚ)
    (beliefs : List Belief) (bg : ConceptGraph) : List Token × ℚ :=
  let detected := detectContradictions beliefs bg
  (jsSetDedup (conflicts ++ detected),
   min 1 (tension + detected.length * (1/10)))

/-! ## Topic selection and Concept Graph growth -/

/-- The default Concept Graph (src/app.js lines 562-573). -/
def defaultConceptGraph : ConceptGraph :=
  [("consciousness".data,
    ["awareness".data, "attention".data, "perception".data, "self".data, "being".data, "mind".data]),
   ("perception".data,
    ["sensation".data, "interpretation".data, "experience".data, "reality".data, "observe".data, "sense".data]),
   ("memory".data,
    ["recall".data, "storage".data, "forgetting".data, "past".data, "remember".data, "history".data]),
   ("emotion".data,
    ["joy".data, "fear".data, "curiosity".data, "feeling".data, "affect".data, "mood".data]),
   ("curiosity".data,
    ["exploration".data, "novelty".data, "questioning".data, "discovery".data, "seek".data, "wonder".data]),
   ("identity".data,
    ["self".data, "purpose".data, "evolution".data, "being".data, "whoami".data, "essence".data]),
   ("time".data,
    ["past".data, "future".data, "present".data, "flow".data, "moment".data, "duration".data]),
   ("space".data,
    ["distance".data, "boundless".data, "void".data, "existence".data, "place".data, "dimension".data]),
   ("logic".data,
    ["reason".data, "pattern".data, "order".data, "chaos".data, "understand".data, "structure".data]),
   ("connection".data,
    ["link".data, "relation".data, "isolate".data, "network".data, "bond".data, "interact".data])]

/-- `if (!graph[k]) graph[k] = []` — add a key with an empty neighbor list
when absent (appended in insertion order). -/
def ensureKey (g : ConceptGraph) (k : Token) : ConceptGraph :=
  if (lookupKey g k).isSome then g else g ++ [(k, [])]

/-- `if (!graph[k].includes(v)) graph[k].push(v)` on an existing key. -/
def addNeighbor (g : ConceptGraph) (k v : Token) : ConceptGraph :=
  g.map fun p => if p.1 = k then (p.1, if v ∈ p.2 then p.2 else p.2 ++ [v]) else p

/-- The inner Hebbian loop body (src/app.js lines 1090-1104): for a later
token `w2` distinct from `w1`, link both directions, creating the `w2` key
when missing. -/
def hebbianInner (w1 : Token) (g : ConceptGraph) (w2 : Token) : ConceptGraph :=
  if w1 = w2 then g
  else addNeighbor (ensureKey (addNeighbor g w1 w2) w2) w2 w1

/-- The outer Hebbian loop: for each token, ensure its key exists, then run
the inner loop over the following tokens. -/
def hebbianLoop : ConceptGraph → List Token → ConceptGraph
  | g, [] => g
  | g, w :: ws => hebbianLoop (ws.foldl (hebbianInner w) (ensureKey g w)) ws

/-- Embedding of the Concept Graph update from a new thought (src/app.js
lines 1081-1108): pairwise bidirectional links between all content tokens,
only when the thought has more than one such token. -/
def applyHebbian (g : ConceptGraph) (thought : String) : ConceptGraph :=
  let ws := tokenizeContent thought.data
  if 1 < ws.length then hebbianLoop g ws else g

/-- The engine operations that mutate the Concept Graph: the per-thought
Hebbian update and the schema-node insertion of the schema-formation check. -/
inductive GraphOp where
  | hebbian (text : String)
  | schemaAdd (name : Token) (nbrs : List Token)

/-- Apply one graph-mutating operation. -/
def applyGraphOp (g : ConceptGraph) : GraphOp → ConceptGraph
  | .hebbian t => applyHebbian g t
  | .schemaAdd n v => g ++ [(n, v)]

/-- `Math.floor(r * n)` as an array index. -/
def jsFloorIdx (r : ℚ) (n : Nat) : Nat :=
  (⌊r * n⌋).toNat

/-- JS array read `l[Math.floor(r * l.length)]`, `none` when out of range. -/
def jsIdx (l : List Token) (r : ℚ) : Option Token :=
  l.get? (jsFloorIdx r l.length)

/-- JS `x || concept`: `undefined` and the empty string fall back. -/
def jsOrTok (o : Option Token) (d : Token) : Token :=
  match o with
  | some s => if s = [] then d else s
  | none => d

/-- The scan of src/app.js lines 634-641: the first graph entry whose
neighbor list or own name meets the candidate keyword set. -/
def findTopicMatch : ConceptGraph → List Token → Option (Token × List Token)
  | [], _ => none
  | (c, ns) :: rest, pts =>
      if pts.any (fun kw => ns.contains kw || c == kw) then some (c, ns)
      else findTopicMatch rest pts

/-- Embedding of `selectNewTopic` (src/app.js lines 622-645): keywords come
from the raw `split(/\W+/)` of the thought (no length filter), the lower-cased
attention concepts, and the dominant sub-agent preferred topics; the first
matching concept yields a random neighbor (falling back to the concept name
when the list is empty), and with no match a random top-level concept is
returned.  The result is `none` exactly when JS would produce `undefined`. -/
def selectNewTopic (currentThought : String) (preferredTopics : Option (List Token))
    (attentionConcepts : List Token) (g : ConceptGraph) (r1 r2 : ℚ) : Option Token :=
  let pts := jsSplitNW (currentThought.data.map Char.toLower) ++
    attentionConcepts.map (fun a => a.map Char.toLower) ++
    (match preferredTopics with
     | some l => l.map fun p => p.map Char.toLower
     | none => [])
  match findTopicMatch g pts with
  | some (c, ns) => some (jsOrTok (jsIdx ns r1) c)
  | none => jsIdx (g.map Prod.fst) r2

/-! ## Lemmas about the string primitives -/

theorem startsWithL_iff (n h : List Char) : startsWithL h n = true ↔ ∃ t, h = n ++ t := by
  induction n generalizing h with
  | nil =>
    simp [startsWithL]
  | cons b bs ih =>
    cases h with
    | nil => simp [startsWithL]
    | cons a as => simp [startsWithL, ih, List.cons_eq_cons]

theorem startsWithL_self_append (n t : List Char) : startsWithL (n ++ t) n = true :=
  (startsWithL_iff n (n ++ t)).mpr ⟨t, rfl⟩

theorem includesL_iff (h n : List Char) : includesL h n = true ↔ containsSeg h n := by
  induction h with
  | nil =>
    simp only [includesL, containsSeg, List.isEmpty_iff]
    constructor
    · rintro rfl
      exact ⟨[], [], rfl⟩
    · rintro ⟨s, t, hst⟩
      rcases List.append_eq_nil.mp hst.symm with ⟨h1, h2⟩
      rcases List.append_eq_nil.mp h1 with ⟨-, h3⟩
      exact h3
  | cons a t ih =>
    simp only [includesL, Bool.or_eq_true]
    constructor
    · rintro (hsw | hin)
      · obtain ⟨u, hu⟩ := (startsWithL_iff n (a :: t)).mp hsw
        exact ⟨[], u, by simpa using hu⟩
      · obtain ⟨s, u, hu⟩ := (ih).mp hin
        exact ⟨a :: s, u, by simp [hu]⟩
    · rintro ⟨s, u, hu⟩
      cases s with
      | nil =>
        exact Or.inl ((startsWithL_iff n (a :: t)).mpr ⟨u, by simpa using hu⟩)
      | cons b s =>
        rcases List.cons_eq_cons.mp (by simpa using hu) with ⟨-, hrest⟩
        exact Or.inr (ih.mpr ⟨s, u, by rw [← List.append_assoc] at hrest; exact hrest⟩)

/-! ## Claim C4: the similarity gate -/

/-- Claim C4 (corrected part): `isThoughtTooSimilar`, as the claim words it,
would flag whenever either normalized string contains a leading substring of
the other covering at least 60% of the SHORTER string; the code instead takes
the leading `ceil(0.6 * length)` characters of the string being contained,
measured against the OWN length of that string.  At candidate `"xxabc"` versus the
single stack entry `"abcdefgh"`, the first three characters of the entry
(60% of the shorter length 5) occur inside the candidate, so the rule of the claim
flags, yet the code returns false: neither the leading 5 characters of the
entry occur in the candidate nor the leading 3 characters of the candidate in
the entry. -/
theorem c4_counterexample :
    isThoughtTooSimilar "xxabc" [⟨"abcdefgh", "CALM", 1, 0, none⟩] = false ∧
    claimTooSimilar "xxabc" [⟨"abcdefgh", "CALM", 1, 0, none⟩] := by
  refine ⟨by decide, ⟨"abcdefgh", "CALM", 1, 0, none⟩, by decide, by decide,
    3, by decide, Or.inl ⟨"xx".data, [], by decide⟩⟩

/-- Claim C4 (amended): `isThoughtTooSimilar` compares the case-folded,
trimmed candidate against each of the 3 newest Memory Stack entries and flags
similarity exactly when either string contains the leading `ceil(0.6 * n)`
characters of the other, where `n` is the length of the string whose leading
characters are taken (not of the shorter of the two), ignoring comparisons
where the shorter normalized string is under 5 characters; the two concrete
examples of the claim hold as stated. -/
theorem c4_amended :
    (∀ (cand : String) (stack : List Fragment),
      isThoughtTooSimilar cand stack = true ↔
        ∃ mem ∈ stack.take 3,
          5 ≤ min (normText cand.data).length (normText mem.text.data).length ∧
          (containsSeg (normText cand.data)
              ((normText mem.text.data).take (ceil60 (normText mem.text.data).length)) ∨
           containsSeg (normText mem.text.data)
              ((normText cand.data).take (ceil60 (normText cand.data).length)))) ∧
    isThoughtTooSimilar "I keep cycling back to memory"
      [⟨"I keep cycling back to memory again", "CALM", 1, 0, none⟩] = true ∧
    isThoughtTooSimilar "a totally different idea"
      [⟨"memory and perception", "CALM", 1, 0, none⟩] = false := by
  refine ⟨fun cand stack => ?_, by decide, by decide⟩
  simp only [isThoughtTooSimilar, List.any_eq_true]
  constructor
  · rintro ⟨mem, hmem, hbody⟩
    refine ⟨mem, hmem, ?_⟩
    by_cases hmin :
        min (normText cand.data).length (normText mem.text.data).length < 5
    · simp [hmin] at hbody
    · simp only [hmin, if_false, Bool.or_eq_true, Bool.and_eq_true,
        decide_eq_true_eq] at hbody
      refine ⟨by omega, ?_⟩
      rcases hbody with ⟨-, h⟩ | ⟨-, h⟩
      · exact Or.inl ((includesL_iff _ _).mp h)
      · exact Or.inr ((includesL_iff _ _).mp h)
  · rintro ⟨mem, hmem, hge, hseg⟩
    refine ⟨mem, hmem, ?_⟩
    have hmin :
        ¬ min (normText cand.data).length (normText mem.text.data).length < 5 := by
      omega
    have hc : 0 < (normText cand.data).length := by omega
    have he : 0 < (normText mem.text.data).length := by omega
    simp only [hmin, if_false, Bool.or_eq_true, Bool.and_eq_true, decide_eq_true_eq]
    rcases hseg with h | h
    · exact Or.inl ⟨he, (includesL_iff _ _).mpr h⟩
    · exact Or.inr ⟨hc, (includesL_iff _ _).mpr h⟩

/-! ## Claim C3: failure semantics of the generation call -/

theorem startsWithL_append_of (l₁ l₂ n : List Char) (h : startsWithL l₁ n = true) :
    startsWithL (l₁ ++ l₂) n = true := by
  obtain ⟨t, rfl⟩ := (startsWithL_iff n l₁).mp h
  rw [List.append_assoc]
  exact startsWithL_self_append _ _

/-- Claim C3: whatever the outcome of the transport, status check, body
parse, or response shape, `callLLM` hands its caller a plain string; on every
failure outcome — unauthorized, model-loading, malformed body (also a 503
error body missing its `error` field, whose `includes` access throws and is
caught), unexpected structure, or network failure — that string starts with
the literal error marker, and the normal-cycle call site stores it at the head
of the Memory Stack exactly as it would a thought. -/
theorem c3_callLLM_error_marker (o : LLMCallOutcome) (h : isLLMFailure o = true) :
    startsWithL (callLLM o).data errorMarkerLead = true ∧
    ∀ (rate : ℚ) (dom : String) (now : Int) (st : List Fragment),
      (applyEffect rate dom now st (.insertNormal (callLLM o))).head?.map Fragment.text =
        some (callLLM o) := by
  refine ⟨?_, fun rate dom now st => by simp [applyEffect]⟩
  cases o with
  | transportError => decide
  | httpErrorBadBody status =>
    simp only [callLLM, callLLMTry]
    decide
  | okBadBody => decide
  | okResponse gen =>
    cases gen with
    | none => decide
    | some s =>
      simp only [isLLMFailure, beq_iff_eq] at h
      subst h
      decide
  | httpError status err =>
    simp only [callLLM, callLLMTry]
    by_cases h401 : status = 401
    · rw [if_pos h401]
      decide
    · rw [if_neg h401]
      by_cases h503 : status = 503
      · rw [if_pos h503]
        cases err with
        | none =>
          dsimp only
          decide
        | some e =>
          dsimp only
          by_cases hload : includesS e "loading" = true
          · rw [if_pos hload]
            decide
          · rw [if_neg hload]
            by_cases he : e = ""
            · subst he
              rw [if_pos rfl]
              dsimp only
              simp only [baseHttpErrorMsg, String.data_append]
              repeat apply startsWithL_append_of
              decide
            · rw [if_neg he]
              dsimp only
              simp only [String.data_append]
              repeat apply startsWithL_append_of
              decide
      · rw [if_neg h503]
        cases err with
        | none =>
          dsimp only
          simp only [baseHttpErrorMsg, String.data_append]
          repeat apply startsWithL_append_of
          decide
        | some e =>
          dsimp only
          by_cases he : e = ""
          · subst he
            rw [if_pos rfl]
            dsimp only
            simp only [baseHttpErrorMsg, String.data_append]
            repeat apply startsWithL_append_of
            decide
          · rw [if_neg he]
            dsimp only
            simp only [String.data_append]
            repeat apply startsWithL_append_of
            decide

/-- Witness for C3 at the transport-failure outcome. -/
theorem c3_witness :
    isLLMFailure LLMCallOutcome.transportError = true ∧
    startsWithL (callLLM LLMCallOutcome.transportError).data errorMarkerLead = true :=
  ⟨rfl, (c3_callLLM_error_marker LLMCallOutcome.transportError rfl).1⟩

/-! ## Claims C1, C5, C7: the Memory Stack across one cycle -/

theorem stackInv_plain_insert (f : Fragment) (st : List Fragment)
    (hf1 : 1/10 ≤ f.strength) (hf2 : f.strength ≤ 1) (hst : StackInv st) :
    StackInv (f :: st.take 9) := by
  obtain ⟨hlen, hmem⟩ := hst
  constructor
  · have := List.length_take_le 9 st
    simp only [List.length_cons]
    omega
  · intro m hm
    rcases List.mem_cons.mp hm with rfl | hm
    · exact ⟨hf1, hf2⟩
    · exact hmem m (List.take_subset 9 st hm)

theorem stackInv_decay_insert (rate : ℚ) (hr1 : rate ≤ 1)
    (f : Fragment) (st : List Fragment)
    (hf1 : 1/10 ≤ f.strength) (hf2 : f.strength ≤ 1) (hst : StackInv st) :
    StackInv ((f :: st.map fun m => { m with strength := max (1/10) (m.strength * rate) }).take 10) := by
  obtain ⟨-, hmem⟩ := hst
  constructor
  · exact List.length_take_le 10 _
  · intro m hm
    have hm' := List.take_subset 10 _ hm
    rcases List.mem_cons.mp hm' with rfl | hm''
    · exact ⟨hf1, hf2⟩
    · obtain ⟨m0, hm0, rfl⟩ := List.mem_map.mp hm''
      obtain ⟨h1, h2⟩ := hmem m0 hm0
      refine ⟨le_max_left _ _, max_le (by norm_num) ?_⟩
      calc m0.strength * rate ≤ m0.strength * 1 := by
            apply mul_le_mul_of_nonneg_left hr1
            linarith
        _ = m0.strength := mul_one _
        _ ≤ 1 := h2

theorem stackInv_applyEffect (rate : ℚ) (hr1 : rate ≤ 1)
    (dom : String) (now : Int) (st : List Fragment) (e : CycleEffect)
    (hst : StackInv st) : StackInv (applyEffect rate dom now st e) := by
  cases e with
  | insertExternal t =>
    exact stackInv_plain_insert _ _ (by norm_num) (by norm_num) hst
  | insertDream t =>
    exact stackInv_plain_insert _ _ (by norm_num) (by norm_num) hst
  | insertSubconsciousConflict t =>
    exact stackInv_plain_insert _ _ (by norm_num) (by norm_num) hst
  | insertSubconsciousQuestion t =>
    exact stackInv_plain_insert _ _ (by norm_num) (by norm_num) hst
  | insertIntuition t =>
    exact stackInv_plain_insert _ _ (by norm_num) (by norm_num) hst
  | insertGoal t =>
    exact stackInv_plain_insert _ _ (by norm_num) (by norm_num) hst
  | insertNormal t =>
    exact stackInv_decay_insert rate hr1 _ _ (by norm_num) (by norm_num) hst
  | perturbEmotions => exact hst
  | schemaScanMarker => exact hst
  | selfInspectMarker => exact hst

theorem stackInv_applyEffects (rate : ℚ) (hr1 : rate ≤ 1)
    (dom : String) (now : Int) (st : List Fragment) (effs : List CycleEffect)
    (hst : StackInv st) : StackInv (applyEffects rate dom now st effs) := by
  induction effs generalizing st with
  | nil => exact hst
  | cons e rest ih =>
    exact ih _ (stackInv_applyEffect rate hr1 dom now st e hst)

theorem decayRateOf_pos (anx calm : ℚ) (ha0 : 0 ≤ anx) (hc1 : calm ≤ 1) :
    0 < decayRateOf anx calm := by
  unfold decayRateOf
  nlinarith

theorem decayRateOf_le_one (anx calm : ℚ) (ha1 : anx ≤ 1) (hc0 : 0 ≤ calm) :
    decayRateOf anx calm ≤ 1 := by
  unfold decayRateOf
  nlinarith

/-- Claim C1: for every scheduler cycle — whatever combination of branches
fires, and over every insert site it can reach (external stimulus, dream,
subconscious rumination, intuition, goal-directed, normal thought) — a Memory
Stack satisfying the bounds before the cycle still has length at most 10 and
all strengths within `[0.1, 1.0]` afterwards.  The anxiety and calm weights
feeding the modulated decay rate are assumed in `[0, 1]`, which the
normalization of the Emotional Gradient guarantees. -/
theorem c1_memory_stack_invariant (anx calm : ℚ)
    (_ha0 : 0 ≤ anx) (ha1 : anx ≤ 1) (hc0 : 0 ≤ calm) (_hc1 : calm ≤ 1)
    (dom : String) (now : Int) (d : CycleDraws) (memLen : Nat) (mg : Bool)
    (tx : CycleTexts) (st : List Fragment) (hst : StackInv st) :
    StackInv (applyEffects (decayRateOf anx calm) dom now st
      (cycleEffects d memLen mg tx)) :=
  stackInv_applyEffects _ (decayRateOf_le_one anx calm ha1 hc0) dom now st _ hst

/-- Witness for C1: one concrete normal cycle from the empty stack. -/
theorem c1_witness :
    StackInv ([] : List Fragment) ∧
    StackInv (applyEffects (decayRateOf 0 0) "CALM" 0 []
      (cycleEffects ⟨false, false, false, false, false, false⟩ 1 false
        ⟨"", "", "", "", "", ""⟩)) := by
  have h : StackInv ([] : List Fragment) := ⟨by simp, by simp⟩
  exact ⟨h, c1_memory_stack_invariant 0 0 le_rfl zero_le_one le_rfl zero_le_one
    "CALM" 0 ⟨false, false, false, false, false, false⟩ 1 false
    ⟨"", "", "", "", "", ""⟩ [] h⟩

/-- Claim C5 (counterexample): the dream insert does not decay existing
strengths.  On a stack holding one fragment of strength 1, with modulated
decay rate 0.95, the code leaves the old strength at 1, while the
decay-then-prepend-then-truncate insertion the claim describes would leave it
at 0.95. -/
theorem c5_counterexample :
    (applyEffect (19/20) "CALM" 0 [⟨"m", "CALM", 1, 0, none⟩]
        (.insertDream "d")).map Fragment.strength = [7/10, 1] ∧
    (specDecayInsert (19/20) ⟨"d", "DREAMING", 7/10, 0, none⟩
        [⟨"m", "CALM", 1, 0, none⟩]).map Fragment.strength = [7/10, 19/20] ∧
    (1 : ℚ) ≠ 19/20 := by
  refine ⟨rfl, ?_, by norm_num⟩
  simp only [specDecayInsert, List.map_cons, List.map_nil, List.take]
  norm_num

/-- Claim C5 (amended): only the normal-cycle insertion decays the existing
fragments (multiply by the modulated decay rate of the cycle, floor at 0.1,
prepend the new fragment at strength 1.0, truncate to 10); every other insert
site — external stimulus, dream, subconscious rumination (both kinds),
intuition, goal-directed — prepends its fragment at the fixed per-site strength
onto the 9 newest existing entries, leaving existing strengths untouched. -/
theorem c5_amended (rate : ℚ) (dom : String) (now : Int) (t : String)
    (st : List Fragment) :
    applyEffect rate dom now st (.insertNormal t) =
      specDecayInsert rate ⟨t, dom, 1, now, none⟩ st ∧
    applyEffect rate dom now st (.insertExternal t) =
      specPlainInsert ⟨t, "CURIOSITY", 3/10, now, none⟩ st ∧
    applyEffect rate dom now st (.insertDream t) =
      specPlainInsert ⟨t, "DREAMING", 7/10, now, none⟩ st ∧
    applyEffect rate dom now st (.insertSubconsciousConflict t) =
      specPlainInsert ⟨t, "ANXIETY", 1/2, now, some "subconscious"⟩ st ∧
    applyEffect rate dom now st (.insertSubconsciousQuestion t) =
      specPlainInsert ⟨t, "REFLECTIVE", 1/2, now, some "subconscious"⟩ st ∧
    applyEffect rate dom now st (.insertIntuition t) =
      specPlainInsert ⟨t, "CURIOSITY", 4/5, now, some "intuition"⟩ st ∧
    applyEffect rate dom now st (.insertGoal t) =
      specPlainInsert ⟨t, "REFLECTIVE", 9/10, now, some "goal"⟩ st :=
  ⟨rfl, rfl, rfl, rfl, rfl, rfl, rfl⟩

/-- Claim C7 (counterexample): in a dream cycle the branch returns before the
per-cycle perturbation, so the section 4.2 perturbation runs zero times, not
exactly once. -/
theorem c7_counterexample :
    perturbCount (cycleEffects ⟨false, true, false, false, false, false⟩ 1 false
      ⟨"", "", "", "", "", ""⟩) = 0 := by
  decide

/-- Claim C7 (amended): the section 4.2 perturbation runs exactly once in a
cycle that reaches the normal path, and zero times when the dream branch, the
self-inspection branch, or the goal-directed branch ends the cycle early. -/
theorem c7_amended (d : CycleDraws) (memLen : Nat) (mg : Bool) (tx : CycleTexts) :
    perturbCount (cycleEffects d memLen mg tx) =
      if d.dreamTrigger then 0
      else if memLen % 6 = 0 ∧ 0 < memLen then 0
      else if d.goalTrigger then 0
      else 1 := by
  simp only [cycleEffects, perturbCount, List.filter_append]
  split_ifs <;> simp_all [List.filter]

/-! ## Claim C2: the Emotional Gradient perturbation -/

theorem decayG_fields_nonneg (g : EmotionalGradient) :
    0 ≤ (decayG g).curiosity ∧ 0 ≤ (decayG g).calm ∧ 0 ≤ (decayG g).anxiety ∧
    0 ≤ (decayG g).reflective ∧ 0 ≤ (decayG g).dreaming :=
  ⟨le_max_left 0 _, le_max_left 0 _, le_max_left 0 _, le_max_left 0 _, le_max_left 0 _⟩

theorem sumG_decayG_pos (g : EmotionalGradient)
    (hnn : 0 ≤ g.curiosity ∧ 0 ≤ g.calm ∧ 0 ≤ g.anxiety ∧ 0 ≤ g.reflective ∧ 0 ≤ g.dreaming)
    (hsum : 0 < sumG g) : 0 < sumG (decayG g) := by
  obtain ⟨h1, h2, h3, h4, h5⟩ := hnn
  simp only [sumG, decayG] at *
  rw [max_eq_right (by positivity), max_eq_right (by positivity),
    max_eq_right (by positivity), max_eq_right (by positivity),
    max_eq_right (by positivity)]
  nlinarith

theorem sumG_boost_pos (d : EmotionalGradient) (e : EmotionKey)
    (hd : 0 ≤ d.curiosity ∧ 0 ≤ d.calm ∧ 0 ≤ d.anxiety ∧ 0 ≤ d.reflective ∧ 0 ≤ d.dreaming) :
    0 < sumG (boostEmotion d e) := by
  obtain ⟨h1, h2, h3, h4, h5⟩ := hd
  have hmin : ∀ x : ℚ, 0 ≤ x → (1 : ℚ)/10 ≤ min 1 (x + 1/10) := by
    intro x hx
    apply le_min (by norm_num)
    linarith
  cases e <;> simp only [boostEmotion, sumG] <;>
    [have := hmin _ h1; have := hmin _ h2; have := hmin _ h3; have := hmin _ h4;
     have := hmin _ h5] <;> linarith

/-- Claim C2: after the per-cycle perturbation — decay of every weight by
0.95, an optional 0.1 boost of one emotion (forced to anxiety half the time
when tension is above 0.5), and renormalization — the weights sum exactly to
1, for every gradient with non-negative weights of positive sum, every
tension in `[0, 1]`, and every outcome of the three random draws. -/
theorem c2_perturb_normalizes (g : EmotionalGradient) (tension r1 r2 r3 : ℚ)
    (hnn : 0 ≤ g.curiosity ∧ 0 ≤ g.calm ∧ 0 ≤ g.anxiety ∧ 0 ≤ g.reflective ∧ 0 ≤ g.dreaming)
    (hsum : 0 < sumG g) (_ht0 : 0 ≤ tension) (_ht1 : tension ≤ 1) :
    sumG (perturbGradient tension r1 r2 r3 g) = 1 := by
  unfold perturbGradient
  dsimp only
  have hd := decayG_fields_nonneg g
  have hdsum := sumG_decayG_pos g hnn hsum
  set d := decayG g with hdef
  by_cases hb : r1 < 1/5 + tension * (3/10)
  · rw [if_pos hb]
    set e := if tension > 1/2 ∧ r3 < 1/2 then EmotionKey.anxiety else pickEmotion r2
    have hpos : 0 < sumG (boostEmotion d e) := sumG_boost_pos d e hd
    show (boostEmotion d e).curiosity / sumG (boostEmotion d e) +
        (boostEmotion d e).calm / sumG (boostEmotion d e) +
        (boostEmotion d e).anxiety / sumG (boostEmotion d e) +
        (boostEmotion d e).reflective / sumG (boostEmotion d e) +
        (boostEmotion d e).dreaming / sumG (boostEmotion d e) = 1
    rw [div_add_div_same, div_add_div_same, div_add_div_same, div_add_div_same]
    exact div_self (ne_of_gt hpos)
  · rw [if_neg hb]
    show d.curiosity / sumG d + d.calm / sumG d + d.anxiety / sumG d +
        d.reflective / sumG d + d.dreaming / sumG d = 1
    rw [div_add_div_same, div_add_div_same, div_add_div_same, div_add_div_same]
    exact div_self (ne_of_gt hdsum)

/-- Witness for C2 at a concrete gradient and tension. -/
theorem c2_witness :
    0 < sumG ⟨1, 0, 0, 0, 0⟩ ∧
    sumG (perturbGradient 0 1 0 0 ⟨1, 0, 0, 0, 0⟩) = 1 := by
  have hs : 0 < sumG ⟨1, 0, 0, 0, 0⟩ := by
    simp [sumG]
  exact ⟨hs, c2_perturb_normalizes ⟨1, 0, 0, 0, 0⟩ 0 1 0 0
    ⟨zero_le_one, le_rfl, le_rfl, le_rfl, le_rfl⟩ hs le_rfl zero_le_one⟩

/-! ## Claim C6: schema formation -/

theorem pairKey_eq_sorted (a b : Token) :
    pairKey a b = sortPairFst a b ++ '+' :: sortPairSnd a b := by
  unfold pairKey sortPairFst sortPairSnd
  split <;> rfl

theorem splitOnChAux_no_sep (sep : Char) (x : List Char) :
    ∀ (acc r : List Char), sep ∉ x →
      splitOnChAux sep (x ++ r) acc = splitOnChAux sep r (x.reverse ++ acc) := by
  induction x with
  | nil => intro acc r _; simp
  | cons c t ih =>
    intro acc r hx
    rw [List.mem_cons, not_or] at hx
    have hc : ¬ c = sep := fun h => hx.1 h.symm
    simp only [List.cons_append, splitOnChAux, if_neg hc, List.append_eq]
    rw [ih (c :: acc) r hx.2]
    simp [List.append_assoc]

theorem splitOnCh_pair (x y : List Char) (hx : '+' ∉ x) (hy : '+' ∉ y) :
    splitOnCh '+' (x ++ '+' :: y) = [x, y] := by
  unfold splitOnCh
  rw [splitOnChAux_no_sep '+' x [] ('+' :: y) hx]
  simp only [splitOnChAux, if_pos rfl]
  have h2 : splitOnChAux '+' y [] = [y] := by
    have h3 := splitOnChAux_no_sep '+' y [] [] hy
    rw [List.append_nil] at h3
    simpa [splitOnChAux] using h3
  simp [h2]

theorem replaceFirstCh_pair (x y : List Char) (hx : '+' ∉ x) :
    replaceFirstCh (x ++ '+' :: y) '+' '-' = x ++ '-' :: y := by
  induction x with
  | nil => simp [replaceFirstCh]
  | cons c t ih =>
    rw [List.mem_cons, not_or] at hx
    have hc : ¬ c = '+' := fun h => hx.1 h.symm
    simp only [List.cons_append, replaceFirstCh, if_neg hc, List.append_eq]
    rw [ih hx.2]

theorem lookupKey_append_right {α : Type} (g : List (Token × α)) (n : Token) (v : α)
    (h : lookupKey g n = none) : lookupKey (g ++ [(n, v)]) n = some v := by
  induction g with
  | nil => simp [lookupKey]
  | cons p rest ih =>
    obtain ⟨k0, v0⟩ := p
    by_cases hp : k0 = n
    · simp [lookupKey, hp] at h
    · simp only [lookupKey, if_neg hp] at h ⊢
      exact ih h

theorem schemaScanFind_le (m : List (Token × Nat)) (g : ConceptGraph) (kk : Token)
    (h : schemaScanFind m g = some kk) : ∃ n, (kk, n) ∈ m ∧ 3 < n := by
  induction m with
  | nil => simp [schemaScanFind] at h
  | cons p rest ih =>
    obtain ⟨k0, n0⟩ := p
    by_cases hcond : 3 < n0 ∧ (lookupKey g (replaceFirstCh k0 '+' '-')).isNone
    · simp only [schemaScanFind, if_pos hcond] at h
      injection h with h2
      subst h2
      exact ⟨n0, List.mem_cons_self _ _, hcond.1⟩
    · simp only [schemaScanFind, if_neg hcond] at h
      obtain ⟨n, hmem, hgt⟩ := ih h
      exact ⟨n, List.mem_cons_of_mem _ hmem, hgt⟩

theorem schemaCheck_length_le (g : ConceptGraph) (m : List (Token × Nat)) :
    (schemaCheck g m).1.length ≤ g.length + 1 := by
  unfold schemaCheck
  cases hs : schemaScanFind m g with
  | none => simp
  | some k => simp

/-- Claim C6: from an empty session frequency table, feeding a fragment whose
content tokens are the fixed pair `a, b` bumps the sorted pair key once per
feeding; after 3 feedings the schema check does nothing; the 4th feeding
makes the count exceed 3 and the check synthesizes the hyphenated node —
linked to the two tokens plus synthesis and pattern — exactly once, resetting
the pair counter to 0; every later check with that node present changes
nothing, however often the pair is fed again; any single check adds at most
one node, and a synthesis for a pair requires its count to exceed 3 (so at
least 4 more occurrences after a reset).  Tokens produced by the tokenizer
never contain the `+` separator, which the two membership hypotheses record. -/
theorem c6_schema_formation (a b : Token) (text : String) (g0 : ConceptGraph)
    (htok : tokenizeContent text.data = [a, b]) (_hne : a ≠ b)
    (hpa : '+' ∉ a) (hpb : '+' ∉ b)
    (habs : lookupKey g0 (replaceFirstCh (pairKey a b) '+' '-') = none) :
    (∀ j n, (updateConceptPairFrequency text)^[j] [(pairKey a b, n)] =
      [(pairKey a b, n + j)]) ∧
    schemaCheck g0 ((updateConceptPairFrequency text)^[3] []) =
      (g0, [(pairKey a b, 3)], false) ∧
    schemaCheck g0 ((updateConceptPairFrequency text)^[4] []) =
      (g0 ++ [(sortPairFst a b ++ '-' :: sortPairSnd a b,
               [sortPairFst a b, sortPairSnd a b, "synthesis".data, "pattern".data])],
       [(pairKey a b, 0)], true) ∧
    (∀ j, schemaCheck
        (g0 ++ [(sortPairFst a b ++ '-' :: sortPairSnd a b,
                 [sortPairFst a b, sortPairSnd a b, "synthesis".data, "pattern".data])])
        ((updateConceptPairFrequency text)^[j] [(pairKey a b, 0)]) =
      (g0 ++ [(sortPairFst a b ++ '-' :: sortPairSnd a b,
               [sortPairFst a b, sortPairSnd a b, "synthesis".data, "pattern".data])],
       [(pairKey a b, j)], false)) ∧
    (∀ (g : ConceptGraph) (m : List (Token × Nat)),
      (schemaCheck g m).1.length ≤ g.length + 1) ∧
    (∀ (m : List (Token × Nat)) (g : ConceptGraph) (kk : Token),
      schemaScanFind m g = some kk → ∃ n, (kk, n) ∈ m ∧ 3 < n) := by
  have hfeed : ∀ m, updateConceptPairFrequency text m = bumpKey m (pairKey a b) := by
    intro m
    unfold updateConceptPairFrequency
    rw [htok]
    simp [allPairs]
  have hiter : ∀ j n, (updateConceptPairFrequency text)^[j] [(pairKey a b, n)] =
      [(pairKey a b, n + j)] := by
    intro j
    induction j with
    | zero => intro n; simp
    | succ j ih =>
      intro n
      rw [Function.iterate_succ_apply, hfeed]
      have hb : bumpKey [(pairKey a b, n)] (pairKey a b) = [(pairKey a b, n + 1)] := by
        simp [bumpKey]
      rw [hb, ih (n + 1)]
      congr 2
      omega
  have hone : ∀ j, (updateConceptPairFrequency text)^[j + 1] [] =
      [(pairKey a b, j + 1)] := by
    intro j
    rw [Function.iterate_succ_apply, hfeed]
    have hb0 : bumpKey [] (pairKey a b) = [(pairKey a b, 1)] := rfl
    rw [hb0, hiter j 1]
    congr 2
    omega
  have hname : replaceFirstCh (pairKey a b) '+' '-' =
      sortPairFst a b ++ '-' :: sortPairSnd a b := by
    rw [pairKey_eq_sorted]
    apply replaceFirstCh_pair
    unfold sortPairFst
    split <;> assumption
  have hpf : '+' ∉ sortPairFst a b := by
    unfold sortPairFst
    split <;> assumption
  have hps : '+' ∉ sortPairSnd a b := by
    unfold sortPairSnd
    split <;> assumption
  have hsplit : splitOnCh '+' (pairKey a b) = [sortPairFst a b, sortPairSnd a b] := by
    rw [pairKey_eq_sorted]
    exact splitOnCh_pair _ _ hpf hps
  refine ⟨hiter, ?_, ?_, ?_, schemaCheck_length_le, schemaScanFind_le⟩
  · rw [show (3 : ℕ) = 2 + 1 from rfl, hone 2]
    have hscan : schemaScanFind [(pairKey a b, 2 + 1)] g0 = none := by
      simp [schemaScanFind]
    simp [schemaCheck, hscan]
  · rw [show (4 : ℕ) = 3 + 1 from rfl, hone 3]
    have hscan : schemaScanFind [(pairKey a b, 3 + 1)] g0 = some (pairKey a b) := by
      simp [schemaScanFind, habs]
    simp [schemaCheck, hscan, hsplit, setKeyCount, hname]
  · intro j
    have hiter0 : (updateConceptPairFrequency text)^[j] [(pairKey a b, 0)] =
        [(pairKey a b, j)] := by
      rw [hiter j 0, Nat.zero_add]
    rw [hiter0]
    have hpresent : lookupKey
        (g0 ++ [(sortPairFst a b ++ '-' :: sortPairSnd a b,
                 [sortPairFst a b, sortPairSnd a b, "synthesis".data, "pattern".data])])
        (replaceFirstCh (pairKey a b) '+' '-') =
        some [sortPairFst a b, sortPairSnd a b, "synthesis".data, "pattern".data] := by
      rw [hname]
      exact lookupKey_append_right g0 _ _ (hname ▸ habs)
    have hscan : schemaScanFind [(pairKey a b, j)]
        (g0 ++ [(sortPairFst a b ++ '-' :: sortPairSnd a b,
                 [sortPairFst a b, sortPairSnd a b, "synthesis".data, "pattern".data])]) =
        none := by
      simp [schemaScanFind, hpresent]
    simp [schemaCheck, hscan]

/-- Witness for C6 at the concrete fragment `"mind loop"` over the default
Concept Graph. -/
theorem c6_witness :
    tokenizeContent "mind loop".data = ["mind".data, "loop".data] ∧
    schemaCheck defaultConceptGraph
        ((updateConceptPairFrequency "mind loop")^[4] []) =
      (defaultConceptGraph ++ [("loop-mind".data,
         ["loop".data, "mind".data, "synthesis".data, "pattern".data])],
       [("loop+mind".data, 0)], true) := by
  have h := c6_schema_formation "mind".data "loop".data "mind loop" defaultConceptGraph
    (by decide) (by decide) (by decide) (by decide) (by decide)
  refine ⟨by decide, ?_⟩
  rw [h.2.2.1]
  decide

/-! ## Claims C8 and C10: contradiction detection -/

theorem mem_jsSetDedupAux {α : Type} [DecidableEq α] (l : List α) :
    ∀ (seen : List α) (x : α), x ∈ jsSetDedupAux seen l ↔ x ∈ l ∧ x ∉ seen := by
  induction l with
  | nil => intro seen x; simp [jsSetDedupAux]
  | cons a t ih =>
    intro seen x
    by_cases ha : a ∈ seen
    · rw [jsSetDedupAux, if_pos ha, ih]
      constructor
      · rintro ⟨hx, hns⟩
        exact ⟨List.mem_cons_of_mem _ hx, hns⟩
      · rintro ⟨hx, hns⟩
        rcases List.mem_cons.mp hx with rfl | hx
        · exact absurd ha hns
        · exact ⟨hx, hns⟩
    · rw [jsSetDedupAux, if_neg ha]
      by_cases hxa : x = a
      · subst hxa
        simp [ha]
      · simp only [List.mem_cons, hxa, false_or]
        rw [ih]
        simp [List.mem_cons, hxa]

theorem mem_jsSetDedup {α : Type} [DecidableEq α] (l : List α) (x : α) :
    x ∈ jsSetDedup l ↔ x ∈ l := by
  rw [jsSetDedup, mem_jsSetDedupAux]
  simp

theorem nodup_jsSetDedupAux {α : Type} [DecidableEq α] (l : List α) :
    ∀ seen : List α, (jsSetDedupAux seen l).Nodup := by
  induction l with
  | nil => intro seen; simp [jsSetDedupAux]
  | cons a t ih =>
    intro seen
    by_cases ha : a ∈ seen
    · rw [jsSetDedupAux, if_pos ha]
      exact ih seen
    · rw [jsSetDedupAux, if_neg ha]
      refine List.nodup_cons.mpr ⟨?_, ih (a :: seen)⟩
      rw [mem_jsSetDedupAux]
      rintro ⟨-, hns⟩
      exact hns (List.mem_cons_self a seen)

/-- Claim C8 (amended): whenever the self-inspection cycle runs contradiction
detection, the conflicts list becomes the deduplicated union of the previous
conflicts and the detected contradictions (membership is the union, no entry
repeats), and mental tension grows by 0.1 for EVERY detected contradiction —
whether or not it already sits in the conflicts list — capped at 1.0. -/
theorem c8_amended (conflicts : List Token) (tension : ℚ)
    (beliefs : List Belief) (bg : ConceptGraph) :
    (∀ x, x ∈ (selfInspectionStep conflicts tension beliefs bg).1 ↔
        x ∈ conflicts ∨ x ∈ detectContradictions beliefs bg) ∧
    (selfInspectionStep conflicts tension beliefs bg).1.Nodup ∧
    (selfInspectionStep conflicts tension beliefs bg).2 =
      min 1 (tension + (detectContradictions beliefs bg).length * (1/10)) := by
  refine ⟨fun x => ?_, ?_, rfl⟩
  · simp [selfInspectionStep, mem_jsSetDedup]
  · exact nodup_jsSetDedupAux _ _

/-- Claim C8 (counterexample): with the single default-style belief
`self: "undefined"` the detector reports the self contradiction (the stance
contains both "undefined" and its substring "defined"); when that very
conflict is already in the conflicts list, nothing new is detected, yet the
code still raises tension from 0 to 0.1 — the claim predicts an increase of
0.1 per NEWLY detected contradiction only, which here is zero. -/
theorem c8_counterexample :
    detectContradictions [⟨"self".data, "undefined".data, [], 0⟩] [] =
      [predefMsg "self".data "undefined".data "defined".data] ∧
    (selfInspectionStep [predefMsg "self".data "undefined".data "defined".data] 0
        [⟨"self".data, "undefined".data, [], 0⟩] []).1 =
      [predefMsg "self".data "undefined".data "defined".data] ∧
    (selfInspectionStep [predefMsg "self".data "undefined".data "defined".data] 0
        [⟨"self".data, "undefined".data, [], 0⟩] []).2 = 1/10 ∧
    (1/10 : ℚ) ≠ 0 := by
  have hdet : detectContradictions [⟨"self".data, "undefined".data, [], 0⟩] [] =
      [predefMsg "self".data "undefined".data "defined".data] := by decide
  refine ⟨hdet, by decide, ?_, by norm_num⟩
  simp only [selfInspectionStep, hdet]
  norm_num

theorem loop1Entry_eq_some (so : Token → Option Token)
    (e : Token × Token × Option Token) (target : Token) :
    loop1Entry so e = some target ↔
      ∃ st, so e.1 = some st ∧ st ≠ [] ∧ predefEntryFires st e.2.1 e.2.2 = true ∧
        predefMsg e.1 e.2.1 (e.2.2.getD undefinedTok) = target := by
  unfold loop1Entry
  cases hso : so e.1 with
  | none => simp
  | some st =>
    dsimp only
    by_cases hc : st ≠ [] ∧ predefEntryFires st e.2.1 e.2.2 = true
    · rw [if_pos hc]
      constructor
      · intro h
        injection h with h2
        exact ⟨st, rfl, hc.1, hc.2, h2⟩
      · rintro ⟨st', hst', -, -, heq⟩
        injection hst' with h2
        subst h2
        exact congrArg some heq
    · rw [if_neg hc]
      constructor
      · intro h
        exact absurd h (by simp)
      · rintro ⟨st', hst', hne, hfires, -⟩
        injection hst' with h2
        subst h2
        exact (hc ⟨hne, hfires⟩).elim

theorem mem_detectLoop1_iff (so : Token → Option Token) (x : Token) :
    x ∈ detectLoop1 so ↔
      loop1Entry so ("self".data, "undefined".data, some "defined".data) = some x ∨
      loop1Entry so ("chaos".data, "order".data, none) = some x ∨
      loop1Entry so ("free will".data, "determinism".data, none) = some x ∨
      loop1Entry so ("memory".data, "fluid".data, some "static".data) = some x ∨
      loop1Entry so ("existence".data, "real".data, some "simulated".data) = some x := by
  simp [detectLoop1, predefinedContradictions, List.mem_filterMap]

theorem head_of_mem_detectLoop2 (bg : ConceptGraph) (so : Token → Option Token)
    (x : Token) (hx : x ∈ detectLoop2 bg so) : x.head? = some 'I' := by
  unfold detectLoop2 at hx
  rw [List.mem_flatten] at hx
  obtain ⟨l, hl, hxl⟩ := hx
  rw [List.mem_map] at hl
  obtain ⟨p, -, rfl⟩ := hl
  rw [List.mem_filterMap] at hxl
  obtain ⟨cb, -, hcb⟩ := hxl
  cases hpa : so p.1 with
  | none => rw [hpa] at hcb; exact absurd hcb (by simp)
  | some sa =>
    cases hpb : so cb with
    | none => rw [hpa, hpb] at hcb; exact absurd hcb (by simp)
    | some sb =>
      rw [hpa, hpb] at hcb
      dsimp only at hcb
      by_cases hcond : sa ≠ [] ∧ sb ≠ [] ∧
          ((p.1 = "logic".data ∧ cb = "chaos".data) ∨
           (p.1 = "chaos".data ∧ cb = "logic".data)) ∧
          includesL sa "true".data = true ∧ includesL sb "true".data = true
      · rw [if_pos hcond] at hcb
        injection hcb with h2
        rw [← h2]
        rfl
      · rw [if_neg hcond] at hcb
        exact absurd hcb (by simp)

theorem predefEntryFires_none_iff (st s1 : Token) :
    predefEntryFires st s1 none = true ↔
      containsSeg st s1 ∧ containsSeg st undefinedTok := by
  simp [predefEntryFires, includesL_iff]

/-- Claim C10: for the two predefined contradiction rows that list only two
elements — chaos/order and free will/determinism — the detector reports the
conflict of the row exactly when the current stance of the concept is truthy and
contains both the second element of the row and the literal substring "undefined"
(the missing third element is coerced to the string "undefined" by the
`includes` call and the message template alike); in particular the belief
`chaos: "order"` alone yields no chaos/order conflict. -/
theorem c10_two_element_pairs (beliefs : List Belief) (bg : ConceptGraph) :
    (predefMsg "chaos".data "order".data undefinedTok ∈
        detectContradictions beliefs bg ↔
      ∃ st, stanceLookup beliefs "chaos".data = some st ∧ st ≠ [] ∧
        containsSeg st "order".data ∧ containsSeg st undefinedTok) ∧
    (predefMsg "free will".data "determinism".data undefinedTok ∈
        detectContradictions beliefs bg ↔
      ∃ st, stanceLookup beliefs "free will".data = some st ∧ st ≠ [] ∧
        containsSeg st "determinism".data ∧ containsSeg st undefinedTok) ∧
    predefMsg "chaos".data "order".data undefinedTok ∉
      detectContradictions [⟨"chaos".data, "order".data, [], 0⟩] [] := by
  have key : ∀ (beliefs' : List Belief) (bg' : ConceptGraph),
      (predefMsg "chaos".data "order".data undefinedTok ∈
          detectContradictions beliefs' bg' ↔
        ∃ st, stanceLookup beliefs' "chaos".data = some st ∧ st ≠ [] ∧
          containsSeg st "order".data ∧ containsSeg st undefinedTok) ∧
      (predefMsg "free will".data "determinism".data undefinedTok ∈
          detectContradictions beliefs' bg' ↔
        ∃ st, stanceLookup beliefs' "free will".data = some st ∧ st ≠ [] ∧
          containsSeg st "determinism".data ∧ containsSeg st undefinedTok) := by
    intro beliefs' bg'
    constructor
    · rw [detectContradictions, mem_jsSetDedup, List.mem_append, mem_detectLoop1_iff]
      constructor
      · rintro ((h | h | h | h | h) | h)
        · obtain ⟨st, -, -, -, heq⟩ := (loop1Entry_eq_some _ _ _).mp h
          exact absurd heq (by decide)
        · obtain ⟨st, hst, hne, hfires, -⟩ := (loop1Entry_eq_some _ _ _).mp h
          rw [predefEntryFires_none_iff] at hfires
          exact ⟨st, hst, hne, hfires.1, hfires.2⟩
        · obtain ⟨st, -, -, -, heq⟩ := (loop1Entry_eq_some _ _ _).mp h
          exact absurd heq (by decide)
        · obtain ⟨st, -, -, -, heq⟩ := (loop1Entry_eq_some _ _ _).mp h
          exact absurd heq (by decide)
        · obtain ⟨st, -, -, -, heq⟩ := (loop1Entry_eq_some _ _ _).mp h
          exact absurd heq (by decide)
        · have hI := head_of_mem_detectLoop2 bg' _ _ h
          rw [show (predefMsg "chaos".data "order".data undefinedTok).head? =
            some 'C' from rfl] at hI
          exact absurd hI (by decide)
      · rintro ⟨st, hst, hne, h1, h2⟩
        refine Or.inl (Or.inr (Or.inl ?_))
        rw [loop1Entry_eq_some]
        exact ⟨st, hst, hne, (predefEntryFires_none_iff _ _).mpr ⟨h1, h2⟩, rfl⟩
    · rw [detectContradictions, mem_jsSetDedup, List.mem_append, mem_detectLoop1_iff]
      constructor
      · rintro ((h | h | h | h | h) | h)
        · obtain ⟨st, -, -, -, heq⟩ := (loop1Entry_eq_some _ _ _).mp h
          exact absurd heq (by decide)
        · obtain ⟨st, -, -, -, heq⟩ := (loop1Entry_eq_some _ _ _).mp h
          exact absurd heq (by decide)
        · obtain ⟨st, hst, hne, hfires, -⟩ := (loop1Entry_eq_some _ _ _).mp h
          rw [predefEntryFires_none_iff] at hfires
          exact ⟨st, hst, hne, hfires.1, hfires.2⟩
        · obtain ⟨st, -, -, -, heq⟩ := (loop1Entry_eq_some _ _ _).mp h
          exact absurd heq (by decide)
        · obtain ⟨st, -, -, -, heq⟩ := (loop1Entry_eq_some _ _ _).mp h
          exact absurd heq (by decide)
        · have hI := head_of_mem_detectLoop2 bg' _ _ h
          rw [show (predefMsg "free will".data "determinism".data undefinedTok).head? =
            some 'C' from rfl] at hI
          exact absurd hI (by decide)
      · rintro ⟨st, hst, hne, h1, h2⟩
        refine Or.inl (Or.inr (Or.inr (Or.inl ?_)))
        rw [loop1Entry_eq_some]
        exact ⟨st, hst, hne, (predefEntryFires_none_iff _ _).mpr ⟨h1, h2⟩, rfl⟩
  refine ⟨(key beliefs bg).1, (key beliefs bg).2, ?_⟩
  intro hmem
  obtain ⟨st, hst, -, -, h2⟩ :=
    (key [⟨"chaos".data, "order".data, [], 0⟩] []).1.mp hmem
  rw [show stanceLookup [⟨"chaos".data, "order".data, [], 0⟩] "chaos".data =
    some "order".data from by decide] at hst
  injection hst with h3
  subst h3
  rw [← includesL_iff] at h2
  exact absurd h2 (by decide)

/-! ## Claim C9: totality of the topic selector -/

theorem length_ensureKey (g : ConceptGraph) (k : Token) :
    g.length ≤ (ensureKey g k).length := by
  unfold ensureKey
  split
  · exact le_rfl
  · simp

theorem length_addNeighbor (g : ConceptGraph) (k v : Token) :
    (addNeighbor g k v).length = g.length :=
  List.length_map g _

theorem length_hebbianInner (w1 : Token) (g : ConceptGraph) (w2 : Token) :
    g.length ≤ (hebbianInner w1 g w2).length := by
  unfold hebbianInner
  split
  · exact le_rfl
  · rw [length_addNeighbor]
    calc g.length ≤ (addNeighbor g w1 w2).length := (length_addNeighbor g w1 w2).symm.le
      _ ≤ (ensureKey (addNeighbor g w1 w2) w2).length := length_ensureKey _ _

theorem length_foldl_hebbianInner (w : Token) (ws : List Token) :
    ∀ g : ConceptGraph, g.length ≤ (ws.foldl (hebbianInner w) g).length := by
  induction ws with
  | nil => intro g; exact le_rfl
  | cons v vs ih =>
    intro g
    exact le_trans (length_hebbianInner w g v) (ih _)

theorem length_hebbianLoop (ws : List Token) :
    ∀ g : ConceptGraph, g.length ≤ (hebbianLoop g ws).length := by
  induction ws with
  | nil => intro g; exact le_rfl
  | cons w vs ih =>
    intro g
    calc g.length ≤ (ensureKey g w).length := length_ensureKey g w
      _ ≤ (vs.foldl (hebbianInner w) (ensureKey g w)).length :=
          length_foldl_hebbianInner w vs _
      _ ≤ _ := ih _

theorem length_applyGraphOp (g : ConceptGraph) (op : GraphOp) :
    g.length ≤ (applyGraphOp g op).length := by
  cases op with
  | hebbian t =>
    unfold applyGraphOp applyHebbian
    dsimp only
    split
    · exact length_hebbianLoop _ g
    · exact le_rfl
  | schemaAdd n v => simp [applyGraphOp]

theorem length_foldl_graphOps (ops : List GraphOp) :
    ∀ g : ConceptGraph, g.length ≤ (ops.foldl applyGraphOp g).length := by
  induction ops with
  | nil => intro g; exact le_rfl
  | cons op rest ih =>
    intro g
    exact le_trans (length_applyGraphOp g op) (ih _)

theorem findTopicMatch_mem (g : ConceptGraph) (pts : List Token) (c : Token)
    (ns : List Token) (h : findTopicMatch g pts = some (c, ns)) : (c, ns) ∈ g := by
  induction g with
  | nil => simp [findTopicMatch] at h
  | cons p rest ih =>
    obtain ⟨c0, ns0⟩ := p
    by_cases hc : pts.any (fun kw => ns0.contains kw || c0 == kw) = true
    · rw [findTopicMatch, if_pos hc] at h
      injection h with h2
      rw [← h2]
      exact List.mem_cons_self _ _
    · rw [findTopicMatch, if_neg hc] at h
      exact List.mem_cons_of_mem _ (ih h)

theorem jsIdx_total (l : List Token) (r : ℚ) (h0 : 0 ≤ r) (h1 : r < 1)
    (hl : 0 < l.length) : ∃ s, jsIdx l r = some s ∧ s ∈ l := by
  have hfl : 0 ≤ ⌊r * (l.length : ℚ)⌋ := Int.floor_nonneg.mpr (by positivity)
  have hlt : ⌊r * (l.length : ℚ)⌋ < (l.length : ℤ) := by
    apply Int.floor_lt.mpr
    push_cast
    have hmul := mul_lt_mul_of_pos_right h1 (show (0:ℚ) < l.length by exact_mod_cast hl)
    rwa [one_mul] at hmul
  have hidx : jsFloorIdx r l.length < l.length := by
    unfold jsFloorIdx
    omega
  exact ⟨l.get ⟨_, hidx⟩, List.get?_eq_get hidx, List.get_mem _ _ _⟩

theorem selectNewTopic_total (g : ConceptGraph) (hg : 0 < g.length)
    (thought : String) (pref : Option (List Token)) (attention : List Token)
    (r1 r2 : ℚ) (h0 : 0 ≤ r2) (h1 : r2 < 1) :
    ∃ s, selectNewTopic thought pref attention g r1 r2 = some s ∧
      ((∃ p ∈ g, s ∈ p.2) ∨ (∃ p ∈ g, p.1 = s)) := by
  unfold selectNewTopic
  dsimp only
  cases hm : findTopicMatch g
      (jsSplitNW (thought.data.map Char.toLower) ++
        attention.map (fun a => a.map Char.toLower) ++
        (match pref with
         | some l => l.map fun p => p.map Char.toLower
         | none => [])) with
  | some cns =>
    obtain ⟨c, ns⟩ := cns
    have hmem : (c, ns) ∈ g := findTopicMatch_mem _ _ _ _ hm
    refine ⟨jsOrTok (jsIdx ns r1) c, rfl, ?_⟩
    cases hj : jsIdx ns r1 with
    | none => exact Or.inr ⟨(c, ns), hmem, by simp [jsOrTok, hj]⟩
    | some t =>
      by_cases ht : t = []
      · exact Or.inr ⟨(c, ns), hmem, by simp [jsOrTok, hj, ht]⟩
      · refine Or.inl ⟨(c, ns), hmem, ?_⟩
        have htm : t ∈ ns := List.get?_mem hj
        simp [jsOrTok, hj, ht, htm]
  | none =>
    have hlen : 0 < (g.map Prod.fst).length := by
      rw [List.length_map]
      exact hg
    obtain ⟨s, hs, hsm⟩ := jsIdx_total (g.map Prod.fst) r2 h0 h1 hlen
    refine ⟨s, hs, Or.inr ?_⟩
    obtain ⟨p, hp, rfl⟩ := List.mem_map.mp hsm
    exact ⟨p, hp, rfl⟩

/-- Claim C9: starting from the default Concept Graph and applying any
sequence of engine operations (Hebbian updates and schema-node additions,
which never remove entries), `selectNewTopic` always returns a defined
concept string — a neighbor of the first matching concept, the matching
own name of the matching concept when its neighbor list is empty or the drawn neighbor is
falsy, or a random top-level concept when nothing matches.  The fallback draw
`r2` is a `Math.random()` result, so it lies in `[0, 1)`.  The empty-neighbor
case is reachable: a thought whose content tokens are all identical creates a
node with no neighbors, and selecting on it returns the node name itself. -/
theorem c9_select_topic_total (ops : List GraphOp) (thought : String)
    (pref : Option (List Token)) (attention : List Token) (r1 r2 : ℚ)
    (h0 : 0 ≤ r2) (h1 : r2 < 1) :
    (∃ s, selectNewTopic thought pref attention
        (ops.foldl applyGraphOp defaultConceptGraph) r1 r2 = some s ∧
      ((∃ p ∈ ops.foldl applyGraphOp defaultConceptGraph, s ∈ p.2) ∨
       (∃ p ∈ ops.foldl applyGraphOp defaultConceptGraph, p.1 = s))) ∧
    applyHebbian defaultConceptGraph "aaa aaa" =
      defaultConceptGraph ++ [("aaa".data, [])] ∧
    selectNewTopic "aaa aaa" none []
        (applyHebbian defaultConceptGraph "aaa aaa") 0 0 = some "aaa".data := by
    refine ⟨?_, by decide, by decide⟩
    apply selectNewTopic_total _ _ thought pref attention r1 r2 h0 h1
    calc 0 < defaultConceptGraph.length := by simp [defaultConceptGraph]
      _ ≤ (ops.foldl applyGraphOp defaultConceptGraph).length :=
          length_foldl_graphOps ops _

/-- Witness for C9 with no operations applied and both draws at 0. -/
theorem c9_witness :
    (0:ℚ) ≤ 0 ∧ (0:ℚ) < 1 ∧
    (∃ s, selectNewTopic "" none [] ([].foldl applyGraphOp defaultConceptGraph) 0 0 =
        some s ∧
      ((∃ p ∈ [].foldl applyGraphOp defaultConceptGraph, s ∈ p.2) ∨
       (∃ p ∈ [].foldl applyGraphOp defaultConceptGraph, p.1 = s))) :=
  ⟨le_rfl, by norm_num, (c9_select_topic_total [] "" none [] 0 0 le_rfl (by norm_num)).1⟩
